import Mathlib

/-!
Verification of the claim-extraction pipeline (`claim_extract.py`) of the
health-claim-checker repository.

The Python functions are shallowly embedded as executable Lean functions over
`String` (viewed through its character list; text is modelled at the ASCII
level, matching every input that the transcript format of the repository produces).
Fallible Python code (tuple-unpacking of `str.split`, which raises on
malformed input) is modelled with `Option`: `none` is the raised exception,
aborting the computation with no partial result, exactly as an uncaught
Python exception does.  Regular-expression searches of the fixed word
patterns are modelled as whole-word occurrence searches over the character
list, with `\b` word boundaries made explicit.
-/

namespace ClaimExtract

/-- A transcript segment: `(timerange, text)`, both strings. -/
abbrev Segment := String × String

/-- An entity: `(text, label)` as returned by the external tagger. -/
abbrev Entity := String × String

/-- A tagged sentence: `(timerange, sentence, entities)`. -/
abbrev TaggedSentence := String × String × List Entity

/-- The apostrophe character (U+0027). -/
def apos : Char := Char.ofNat 39

/-- Python `s.split(sep, 1)` on a character list, when `sep` occurs: returns
the part before the first occurrence of `sep` and the part after it.
Returns `none` when `sep` does not occur (in Python the two-element
unpacking or the `[1]` indexing at the call site then raises). -/
def splitFirstChars (sep : Char) : List Char → Option (List Char × List Char)
  | [] => none
  | c :: cs =>
    if c = sep then some ([], cs)
    else
      match splitFirstChars sep cs with
      | none => none
      | some (a, b) => some (c :: a, b)

/-- Python `s.split(sep, 1)` producing the two halves as strings;
`none` when `sep` is absent from `s`. -/
def splitFirst (sep : Char) (s : String) : Option (String × String) :=
  match splitFirstChars sep s.toList with
  | none => none
  | some (a, b) => some (⟨a⟩, ⟨b⟩)

/-- Python truthiness-plus-islower guard `text and text[0].islower()`:
the text is nonempty and its first character is a lowercase letter. -/
def isContinuationText (text : String) : Bool :=
  match text.toList with
  | [] => false
  | c :: _ => c.isLower

/-- One iteration of the loop body of `merge_segments` (claim_extract.py,
lines 9-19): `merged` is the output list built so far, `seg` the current
`(timerange, text)` pair.  The fold branch re-reads `merged[-1]`, splits
both timeranges at their first dash (raising, i.e. `none`, when a dash is
missing) and replaces `merged[-1]` by the combined segment; otherwise the
segment is appended as-is. -/
def mergeStep (merged : List Segment) (seg : Segment) : Option (List Segment) :=
  if isContinuationText seg.2 && !merged.isEmpty then
    match merged.getLast? with
    | none => none
    | some (prev_range, prev_text) =>
      match splitFirst '-' prev_range with
      | none => none
      | some sp =>
        match splitFirst '-' seg.1 with
        | none => none
        | some ec =>
          some (merged.dropLast ++ [(sp.1 ++ "-" ++ ec.2, prev_text ++ " " ++ seg.2)])
  else
    some (merged ++ [seg])

/-- The function `merge_segments` (claim_extract.py, lines 4-20): a
left-to-right pass that
folds continuation segments into the previous output segment. -/
def merge_segments (segments : List Segment) : Option (List Segment) :=
  segments.foldlM mergeStep []

/-- Python `str.strip()` on a character list: leading and trailing
whitespace removed. -/
def stripChars (l : List Char) : List Char :=
  ((l.dropWhile Char.isWhitespace).reverse.dropWhile Char.isWhitespace).reverse

/-- Python `str.strip()`. -/
def strip (s : String) : String := ⟨stripChars s.toList⟩

/-- Python `str.lower()` (ASCII model). -/
def lower (s : String) : String := ⟨s.toList.map Char.toLower⟩

/-- A regex word character `\w`: letters, digits or underscore. -/
def isWordChar (c : Char) : Bool := c.isAlphanum || c = '_'

/-- The pattern `\b w \b` matches the character list `s` at offset `i`:
`w` occurs at position `i` and both sides of the occurrence are word
boundaries (start/end of string, or a non-word character). -/
def occursAt (w s : List Char) (i : Nat) : Bool :=
  ((s.drop i).take w.length == w)
  && (match (s.take i).getLast? with
      | none => true
      | some c => !isWordChar c)
  && (match (s.drop (i + w.length)).head? with
      | none => true
      | some c => !isWordChar c)

/-- Model of `re.search` of the whole-word pattern `\b w \b` in `s`: the
word occurs
at some offset with word boundaries on both sides. -/
def containsWordB (w s : List Char) : Bool :=
  (List.range (s.length + 1)).any (fun i => occursAt w s i)

/-- Whether `p` is a prefix of `s` (Python `str.startswith` / an anchored
regex
`re.match` of a literal alternative). -/
def startsWithL : List Char → List Char → Bool
  | [], _ => true
  | _ :: _, [] => false
  | c :: p, d :: s => c == d && startsWithL p s

/-- The word alternatives of `VERB_PATTERN`
(`\b(lose|gain|burn|get|makes?|is|will|can|do)\b`, claim_extract.py
line 23); `makes?` contributes both `make` and `makes`. -/
def verbWords : List String :=
  ["lose", "gain", "burn", "get", "make", "makes", "is", "will", "can", "do"]

/-- The string that-apostrophe-s, built character by character. -/
def thatApos : String := ⟨['t', 'h', 'a', 't', apos, 's']⟩

/-- The string `thats` (the apostrophe in the intro alternative is
optional). -/
def thatNoApos : String := "thats"

/-- Model of `INTRO_PATTERN.match` (claim_extract.py line 24): the anchored
pattern whose alternatives are `one of`, that-apostrophe-s with the
apostrophe optional, `my name`, and a duplicated literal that-apostrophe-s
exactly as in the source. -/
def introMatch (s : String) : Bool :=
  startsWithL "one of".toList s.toList
  || startsWithL thatApos.toList s.toList
  || startsWithL thatNoApos.toList s.toList
  || startsWithL "my name".toList s.toList
  || startsWithL thatApos.toList s.toList

/-- The predicate `is_strong_claim` (claim_extract.py, lines 26-37):
lowercase the
sentence, reject it when the intro pattern matches at the start, otherwise
accept exactly when some assertion verb occurs as a whole word. -/
def is_strong_claim (sent : String) : Bool :=
  let sent_l := lower sent
  if introMatch sent_l then false
  else verbWords.any (fun v => containsWordB v.toList sent_l.toList)

/-- One iteration of the loop body of `load_transcript` (claim_extract.py,
lines 43-48): strip the line, skip it when blank, otherwise split at the
first `:` (raising, i.e. `none`, when there is none) and append the pair of
stripped halves. -/
def loadStep (segs : List Segment) (line : String) : Option (List Segment) :=
  let l := strip line
  if l = "" then some segs
  else
    match splitFirst ':' l with
    | none => none
    | some p => some (segs ++ [(strip p.1, strip p.2)])

/-- The function `load_transcript` (claim_extract.py, lines 39-49) on the
list of lines
of the file. -/
def load_transcript (lines : List String) : Option (List Segment) :=
  lines.foldlM loadStep []

/-- The segment a single well-formed line contributes: `none` for a blank
line, otherwise the pair of stripped halves around the first `:` (used to
state what `load_transcript` returns on fully well-formed input). -/
def parsed_line (line : String) : Option Segment :=
  let l := strip line
  if l = "" then none
  else (splitFirst ':' l).map (fun p => (strip p.1, strip p.2))

/-- The default keyword vocabulary of `filter_claims`
(`\b(calories?|pound(s)?|weight|energy)\b`, claim_extract.py lines 86-89);
each optional-suffix group contributes both word forms. -/
def keywordWords : List String :=
  ["calorie", "calories", "pound", "pounds", "weight", "energy"]

/-- The default keyword search of `filter_claims`: some keyword
occurs as a whole word, case-insensitively. -/
def defaultKeywordSearch (sent : String) : Bool :=
  keywordWords.any (fun w => containsWordB w.toList (lower sent).toList)

/-- The function `filter_claims` (claim_extract.py, lines 73-97).  `none`
for
`allowed_labels` or `keyword_pattern` selects the Python default
(`{QUANTITY, CARDINAL, PERCENT}` and the keyword vocabulary above); a
tagged sentence is kept when some entity label is allowed or the sentence
matches the keyword pattern. -/
def filter_claims (entity_results : List TaggedSentence)
    (allowed_labels : Option (List String))
    (keyword_pattern : Option (String → Bool)) : List TaggedSentence :=
  let labels :=
    match allowed_labels with
    | none => ["QUANTITY", "CARDINAL", "PERCENT"]
    | some ls => ls
  let kw :=
    match keyword_pattern with
    | none => defaultKeywordSearch
    | some f => f
  entity_results.filter (fun r =>
    (r.2.2.any (fun e => labels.contains e.2)) || kw r.2.1)

/-! ### Specification-level predicates

These state, in decomposition-of-the-string terms, what
"starts with" and "contains as a whole word" mean; lemmas below prove the
executable search functions equivalent to them. -/

/-- The word `w` occurs in `s` as a whole word: `s` decomposes as
`pre ++ w ++ post` where `pre` does not end in a word character and
`post` does not start with one. -/
def WordOccursL (w s : List Char) : Prop :=
  ∃ pre post : List Char, s = pre ++ w ++ post
    ∧ (∀ c, pre.getLast? = some c → isWordChar c = false)
    ∧ (∀ c, post.head? = some c → isWordChar c = false)

/-- The proposition that `s` starts with `p`: `s` decomposes as
`p ++ rest`. -/
def StartsWithL (p s : List Char) : Prop := ∃ rest, s = p ++ rest

/-- The intro pattern with the duplicated that-apostrophe-s alternative
removed, following the amended rule set of the spec. -/
def introMatchDedup (s : String) : Bool :=
  startsWithL "one of".toList s.toList
  || startsWithL thatApos.toList s.toList
  || startsWithL thatNoApos.toList s.toList
  || startsWithL "my name".toList s.toList

/-- Variant of `is_strong_claim` rebuilt on the deduplicated intro
pattern. -/
def is_strong_claim_dedup (sent : String) : Bool :=
  let sent_l := lower sent
  if introMatchDedup sent_l then false
  else verbWords.any (fun v => containsWordB v.toList sent_l.toList)

/-! ### Helper lemmas -/

/-- The executable whole-word search agrees with the decomposition-style
occurrence predicate. -/
theorem containsWordB_iff (w s : List Char) :
    containsWordB w s = true ↔ WordOccursL w s := by
  constructor
  · intro h
    rw [containsWordB, List.any_eq_true] at h
    obtain ⟨i, _, hocc⟩ := h
    rw [occursAt, Bool.and_eq_true, Bool.and_eq_true] at hocc
    obtain ⟨⟨htake, hleft⟩, hright⟩ := hocc
    have htake' : (s.drop i).take w.length = w := by simpa using htake
    refine ⟨s.take i, s.drop (i + w.length), ?_, ?_, ?_⟩
    · conv_lhs => rw [← List.take_append_drop i s]
      conv_lhs => rw [← List.take_append_drop w.length (s.drop i)]
      rw [htake', List.drop_drop, List.append_assoc]
    · intro c hc
      rw [hc] at hleft
      simpa using hleft
    · intro c hc
      rw [hc] at hright
      simpa using hright
  · rintro ⟨pre, post, hs, h1, h2⟩
    rw [containsWordB, List.any_eq_true]
    have hlen : s.length = pre.length + w.length + post.length := by
      rw [hs]; simp [List.length_append]; omega
    refine ⟨pre.length, ?_, ?_⟩
    · rw [List.mem_range]; omega
    · have hdrop : s.drop pre.length = w ++ post := by
        rw [hs, List.append_assoc, List.drop_left]
      have htake : s.take pre.length = pre := by
        rw [hs, List.append_assoc, List.take_left]
      have hdrop2 : s.drop (pre.length + w.length) = post := by
        rw [hs, ← List.length_append, List.drop_left]
      rw [occursAt, Bool.and_eq_true, Bool.and_eq_true]
      refine ⟨⟨?_, ?_⟩, ?_⟩
      · rw [hdrop, List.take_left]; simp
      · rw [htake]
        cases hgl : pre.getLast? with
        | none => simp
        | some c => simp [h1 c hgl]
      · rw [hdrop2]
        cases hh : post.head? with
        | none => simp
        | some c => simp [h2 c hh]

/-- The executable prefix test agrees with the decomposition-style
starts-with predicate. -/
theorem startsWithL_iff (p s : List Char) :
    startsWithL p s = true ↔ StartsWithL p s := by
  induction p generalizing s with
  | nil => simp [startsWithL, StartsWithL]
  | cons c p ih =>
    cases s with
    | nil => simp [startsWithL, StartsWithL]
    | cons d s =>
      rw [startsWithL, Bool.and_eq_true]
      constructor
      · rintro ⟨hcd, h⟩
        have hcd' : c = d := by simpa using hcd
        obtain ⟨t, ht⟩ := (ih s).mp h
        exact ⟨t, by simp [hcd', ht]⟩
      · rintro ⟨t, ht⟩
        simp only [List.cons_append, List.cons.injEq] at ht
        obtain ⟨hdc, hst⟩ := ht
        refine ⟨by simp [hdc], (ih s).mpr ⟨t, hst⟩⟩

/-- An element delivered by `getLast?` is a member of the list. -/
theorem mem_of_getLast?_eq {l : List Segment} {a : Segment}
    (h : l.getLast? = some a) : a ∈ l := by
  induction l with
  | nil => simp at h
  | cons x xs ih =>
    cases xs with
    | nil => simp_all
    | cons y ys =>
      rw [List.getLast?_cons_cons] at h
      exact List.mem_cons_of_mem x (ih h)

/-- A text whose first character is lowercase passes the continuation
guard. -/
theorem isContinuationText_of_head {t : String} {c : Char}
    (h1 : t.toList.head? = some c) (h2 : c.isLower = true) :
    isContinuationText t = true := by
  rw [isContinuationText]
  cases hh : t.toList with
  | nil => rw [hh] at h1; simp at h1
  | cons d ds =>
    rw [hh] at h1
    simp only [List.head?_cons, Option.some.injEq] at h1
    rw [h1]
    exact h2

/-- When the continuation guard is false, `mergeStep` appends the segment
unchanged. -/
theorem mergeStep_not_fold (merged : List Segment) (seg : Segment)
    (h : (isContinuationText seg.2 && !merged.isEmpty) = false) :
    mergeStep merged seg = some (merged ++ [seg]) := by
  rw [mergeStep, if_neg]
  simp [h]

/-- A non-continuation segment is always appended unchanged. -/
theorem mergeStep_of_not_cont (merged : List Segment) (seg : Segment)
    (h : isContinuationText seg.2 = false) :
    mergeStep merged seg = some (merged ++ [seg]) := by
  apply mergeStep_not_fold
  rw [h, Bool.false_and]

/-- With an empty output list the guard fails and the segment starts a
fresh entry. -/
theorem mergeStep_nil (seg : Segment) : mergeStep [] seg = some [seg] := by
  apply mergeStep_not_fold
  simp

/-- The fold branch of `mergeStep`, fully applied: guard true, both
timeranges split successfully. -/
theorem mergeStep_fold (merged : List Segment) (tr t pr pt : String)
    (sp ec : String × String)
    (hcont : isContinuationText t = true)
    (hlast : merged.getLast? = some (pr, pt))
    (hsp : splitFirst '-' pr = some sp)
    (hec : splitFirst '-' tr = some ec) :
    mergeStep merged (tr, t)
      = some (merged.dropLast ++ [(sp.1 ++ "-" ++ ec.2, pt ++ " " ++ t)]) := by
  have hne : merged ≠ [] := by
    intro hh
    rw [hh] at hlast
    simp at hlast
  have hempty : merged.isEmpty = false := by
    cases merged with
    | nil => exact absurd rfl hne
    | cons x xs => rfl
  have hg : (isContinuationText (tr, t).2 && !merged.isEmpty) = true := by
    simp [hcont, hempty]
  rw [mergeStep, if_pos hg]
  simp only [hlast, hsp, hec]

/-- The character-level split succeeds exactly when the separator
occurs. -/
theorem splitFirstChars_isSome_iff (sep : Char) (l : List Char) :
    (splitFirstChars sep l).isSome = true ↔ sep ∈ l := by
  induction l with
  | nil => simp [splitFirstChars]
  | cons c cs ih =>
    rw [splitFirstChars]
    by_cases h : c = sep
    · simp [h]
    · rw [if_neg h]
      cases hs : splitFirstChars sep cs with
      | none =>
        rw [hs] at ih
        simp only [Option.isSome_none, Bool.false_eq_true, false_iff] at ih ⊢
        intro hmem
        rcases List.mem_cons.mp hmem with h1 | h2
        · exact h h1.symm
        · exact ih h2
      | some p =>
        obtain ⟨a, b⟩ := p
        rw [hs] at ih
        simp only [Option.isSome_some, true_iff] at ih
        simp [List.mem_cons, ih]

/-- String-level version of `splitFirstChars_isSome_iff`. -/
theorem splitFirst_isSome_iff (sep : Char) (s : String) :
    (splitFirst sep s).isSome = true ↔ sep ∈ s.toList := by
  rw [splitFirst, ← splitFirstChars_isSome_iff sep s.toList]
  cases h : splitFirstChars sep s.toList with
  | none => simp
  | some p =>
    obtain ⟨a, b⟩ := p
    simp

/-- A range built by the fold branch always contains a dash. -/
theorem splitFirst_append_dash (a b : String) :
    (splitFirst '-' (a ++ "-" ++ b)).isSome = true := by
  rw [splitFirst_isSome_iff]
  simp

/-- On a run of non-continuation segments, the merge fold appends each
segment unchanged. -/
theorem merge_nofold_aux :
    ∀ (segs acc : List Segment),
      (∀ s ∈ segs, isContinuationText s.2 = false) →
      List.foldlM mergeStep acc segs = some (acc ++ segs) := by
  intro segs
  induction segs with
  | nil => intro acc _; simp
  | cons x xs ih =>
    intro acc h
    rw [List.foldlM_cons, mergeStep_of_not_cont acc x (h x (List.mem_cons_self x xs))]
    have hx := ih (acc ++ [x]) (fun s hs => h s (List.mem_cons_of_mem x hs))
    simp [hx]

/-- When every pending timerange contains a dash and every accumulated
output timerange contains a dash, the merge fold succeeds. -/
theorem merge_total_aux :
    ∀ (segs acc : List Segment),
      (∀ s ∈ segs, (splitFirst '-' s.1).isSome = true) →
      (∀ s ∈ acc, (splitFirst '-' s.1).isSome = true) →
      (List.foldlM mergeStep acc segs).isSome = true := by
  intro segs
  induction segs with
  | nil => intro acc _ _; simp
  | cons x xs ih =>
    intro acc hsegs hacc
    rw [List.foldlM_cons]
    by_cases hg : (isContinuationText x.2 && !acc.isEmpty) = true
    · have hg' : isContinuationText x.2 = true ∧ acc.isEmpty = false := by
        simpa using hg
      have hne : acc ≠ [] := by
        intro hh
        rw [hh] at hg'
        simp at hg'
      have hlastSome : acc.getLast?.isSome = true := by
        simp [List.getLast?_isSome, hne]
      obtain ⟨last, hlast⟩ := Option.isSome_iff_exists.mp hlastSome
      obtain ⟨pr, pt⟩ := last
      obtain ⟨sp, hsp⟩ := Option.isSome_iff_exists.mp
        (hacc (pr, pt) (mem_of_getLast?_eq hlast))
      obtain ⟨ec, hec⟩ := Option.isSome_iff_exists.mp
        (hsegs x (List.mem_cons_self x xs))
      rw [mergeStep_fold acc x.1 x.2 pr pt sp ec hg'.1 hlast hsp hec]
      refine ih (acc.dropLast ++ [(sp.1 ++ "-" ++ ec.2, pt ++ " " ++ x.2)])
        (fun s hs => hsegs s (List.mem_cons_of_mem x hs)) ?_
      intro s hs
      rcases List.mem_append.mp hs with h1 | h2
      · exact hacc s (List.dropLast_subset acc h1)
      · have hs2 : s = (sp.1 ++ "-" ++ ec.2, pt ++ " " ++ x.2) := by
          simpa using h2
        rw [hs2]
        exact splitFirst_append_dash sp.1 ec.2
    · rw [mergeStep_not_fold acc x (by simpa using hg)]
      refine ih (acc ++ [x]) (fun s hs => hsegs s (List.mem_cons_of_mem x hs)) ?_
      intro s hs
      rcases List.mem_append.mp hs with h1 | h2
      · exact hacc s h1
      · have hs2 : s = x := by simpa using h2
        rw [hs2]
        exact hsegs x (List.mem_cons_self x xs)

/-- A non-blank line without a colon anywhere in the input aborts the
whole load. -/
theorem load_abort_aux :
    ∀ (lines : List String) (acc : List Segment),
      (∃ line ∈ lines, strip line ≠ "" ∧ splitFirst ':' (strip line) = none) →
      List.foldlM loadStep acc lines = none := by
  intro lines
  induction lines with
  | nil =>
    intro acc h
    simp at h
  | cons x xs ih =>
    intro acc h
    rw [List.foldlM_cons]
    obtain ⟨line, hmem, hne, hnone⟩ := h
    rcases List.mem_cons.mp hmem with rfl | hmem'
    · have hstep : loadStep acc line = none := by
        simp [loadStep, hne, hnone]
      rw [hstep]
      rfl
    · cases hx : loadStep acc x with
      | none => rfl
      | some acc' =>
        exact ih acc' ⟨line, hmem', hne, hnone⟩

/-- On fully well-formed input the load produces one segment per non-blank
line, splitting at the first colon and stripping both halves. -/
theorem load_ok_aux :
    ∀ (lines : List String) (acc : List Segment),
      (∀ line ∈ lines, strip line ≠ "" → (splitFirst ':' (strip line)).isSome = true) →
      List.foldlM loadStep acc lines = some (acc ++ lines.filterMap parsed_line) := by
  intro lines
  induction lines with
  | nil => intro acc _; simp
  | cons x xs ih =>
    intro acc h
    rw [List.foldlM_cons]
    by_cases hb : strip x = ""
    · have hstep : loadStep acc x = some acc := by
        simp [loadStep, hb]
      have hpl : parsed_line x = none := by
        simp [parsed_line, hb]
      rw [hstep, List.filterMap_cons, hpl]
      exact ih acc (fun l hl => h l (List.mem_cons_of_mem x hl))
    · obtain ⟨p, hp⟩ := Option.isSome_iff_exists.mp
        (h x (List.mem_cons_self x xs) hb)
      have hstep : loadStep acc x = some (acc ++ [(strip p.1, strip p.2)]) := by
        simp [loadStep, hb, hp]
      have hpl : parsed_line x = some (strip p.1, strip p.2) := by
        simp [parsed_line, hb, hp]
      rw [hstep, List.filterMap_cons, hpl]
      have hrec := ih (acc ++ [(strip p.1, strip p.2)])
        (fun l hl => h l (List.mem_cons_of_mem x hl))
      exact hrec.trans (by simp)

/-! ### Claim theorems -/

/-- Claim C1: a segment whose text begins with a lowercase alphabetic
character is folded into the immediately preceding segment of the output
list built so far, the fold setting the new timerange to (start of the
range of the previous output segment, end of the range of the current
segment) and the new text to previous text, a single space, and current
text; in particular the
cascade ("10-12","Hello"), ("12-14","world"), ("14-16","today") merges to
the single segment ("10-16","Hello world today"). -/
theorem merge_segments_fold_rule :
    (∀ (merged : List Segment) (tr t pr pt : String) (sp ec : String × String),
      (∃ c, t.toList.head? = some c ∧ c.isLower = true) →
      merged.getLast? = some (pr, pt) →
      splitFirst '-' pr = some sp →
      splitFirst '-' tr = some ec →
      mergeStep merged (tr, t)
        = some (merged.dropLast ++ [(sp.1 ++ "-" ++ ec.2, pt ++ " " ++ t)]))
    ∧ merge_segments [("10-12", "Hello"), ("12-14", "world"), ("14-16", "today")]
        = some [("10-16", "Hello world today")] := by
  refine ⟨?_, by decide⟩
  intro merged tr t pr pt sp ec hc hlast hsp hec
  obtain ⟨c, hc1, hc2⟩ := hc
  exact mergeStep_fold merged tr t pr pt sp ec
    (isContinuationText_of_head hc1 hc2) hlast hsp hec

/-- Witness for C1: the fold rule applied at concrete segments. -/
theorem merge_segments_fold_rule_witness :
    mergeStep [("10-12", "Hello")] ("12-14", "world")
      = some [("10-14", "Hello world")] := by
  have h := merge_segments_fold_rule.1 [("10-12", "Hello")] "12-14" "world"
    "10-12" "Hello" ("10", "12") ("12", "14")
    ⟨'w', by decide, by decide⟩ (by decide) (by decide) (by decide)
  exact h.trans (by decide)

/-- Claim C2: `is_strong_claim` returns false when the lowercased sentence
starts with one of the intro patterns `one of`, that-apostrophe-s (with or
without the apostrophe) or `my name`; otherwise it returns true exactly
when the
sentence contains, as a whole word and case-insensitively, one of the
assertion verbs lose, gain, burn, get, make, makes, is, will, can, do. -/
theorem is_strong_claim_spec (sent : String) :
    is_strong_claim sent = true ↔
      (¬(StartsWithL "one of".toList (lower sent).toList
          ∨ StartsWithL thatApos.toList (lower sent).toList
          ∨ StartsWithL thatNoApos.toList (lower sent).toList
          ∨ StartsWithL "my name".toList (lower sent).toList)
        ∧ ∃ v, v ∈ verbWords ∧ WordOccursL v.toList (lower sent).toList) := by
  have hintro : introMatch (lower sent) = true ↔
      (StartsWithL "one of".toList (lower sent).toList
        ∨ StartsWithL thatApos.toList (lower sent).toList
        ∨ StartsWithL thatNoApos.toList (lower sent).toList
        ∨ StartsWithL "my name".toList (lower sent).toList) := by
    rw [introMatch]
    simp only [Bool.or_eq_true, startsWithL_iff]
    tauto
  cases h : introMatch (lower sent) with
  | true =>
    have hd := hintro.mp h
    simp only [is_strong_claim, h, if_true, Bool.false_eq_true, false_iff]
    intro hcon
    exact hcon.1 hd
  | false =>
    have hnd : ¬(StartsWithL "one of".toList (lower sent).toList
        ∨ StartsWithL thatApos.toList (lower sent).toList
        ∨ StartsWithL thatNoApos.toList (lower sent).toList
        ∨ StartsWithL "my name".toList (lower sent).toList) := by
      intro hd
      rw [← hintro] at hd
      simp [h] at hd
    simp only [is_strong_claim, h, if_false, Bool.false_eq_true]
    rw [List.any_eq_true]
    constructor
    · rintro ⟨v, hv, hw⟩
      exact ⟨hnd, v, hv, (containsWordB_iff _ _).mp hw⟩
    · rintro ⟨_, v, hv, hw⟩
      exact ⟨v, hv, (containsWordB_iff _ _).mpr hw⟩

/-- Claim C3: with default parameters, `filter_claims` keeps exactly the tagged
sentences having an entity labelled QUANTITY, CARDINAL or PERCENT, or
containing (case-insensitively, as a whole word) one of the keywords
calorie(s), pound(s), weight, energy; in particular a keyword-only
sentence is kept, a CARDINAL-only sentence is kept, and a sentence with
neither is dropped. -/
theorem filter_claims_default_spec :
    (∀ (results : List TaggedSentence) (r : TaggedSentence),
      r ∈ filter_claims results none none ↔
        r ∈ results ∧
          ((∃ e, e ∈ r.2.2 ∧ (e.2 = "QUANTITY" ∨ e.2 = "CARDINAL" ∨ e.2 = "PERCENT"))
            ∨ ∃ w, w ∈ keywordWords ∧ WordOccursL w.toList (lower r.2.1).toList))
    ∧ filter_claims [("0-1", "You burn calories fast", [])] none none
        = [("0-1", "You burn calories fast", [])]
    ∧ filter_claims [("0-1", "Take two of these", [("two", "CARDINAL")])] none none
        = [("0-1", "Take two of these", [("two", "CARDINAL")])]
    ∧ filter_claims [("0-1", "Hello there", [("Bob", "PERSON")])] none none = [] := by
  refine ⟨?_, by decide, by decide, by decide⟩
  intro results r
  have hfc : filter_claims results none none
      = results.filter (fun r =>
          (r.2.2.any (fun e => (["QUANTITY", "CARDINAL", "PERCENT"] : List String).contains e.2))
          || defaultKeywordSearch r.2.1) := rfl
  rw [hfc, List.mem_filter]
  refine and_congr_right fun _ => ?_
  rw [Bool.or_eq_true, defaultKeywordSearch, List.any_eq_true, List.any_eq_true]
  constructor
  · rintro (⟨e, he, hc⟩ | ⟨w, hw, hcw⟩)
    · exact Or.inl ⟨e, he, by simpa using hc⟩
    · exact Or.inr ⟨w, hw, (containsWordB_iff _ _).mp hcw⟩
  · rintro (⟨e, he, hc⟩ | ⟨w, hw, hcw⟩)
    · exact Or.inl ⟨e, he, by simpa using hc⟩
    · exact Or.inr ⟨w, hw, (containsWordB_iff _ _).mpr hcw⟩

/-- Claim C4: `load_transcript` fails (aborting with no partial result) whenever
some non-blank line has no colon; on input whose non-blank lines all have
a colon it returns one segment per non-blank line, split at the first
colon with both parts stripped. -/
theorem load_transcript_spec :
    (∀ lines : List String,
      (∃ line ∈ lines, strip line ≠ "" ∧ splitFirst ':' (strip line) = none) →
      load_transcript lines = none)
    ∧ (∀ lines : List String,
      (∀ line ∈ lines, strip line ≠ "" → (splitFirst ':' (strip line)).isSome = true) →
      load_transcript lines = some (lines.filterMap parsed_line)) := by
  constructor
  · intro lines h
    exact load_abort_aux lines [] h
  · intro lines h
    have := load_ok_aux lines [] h
    simpa using this

/-- Witness for C4: a colonless line aborts the load; a well-formed input
loads fully. -/
theorem load_transcript_spec_witness :
    load_transcript ["10-12: Hello", "not a valid line"] = none
    ∧ load_transcript ["10-12: Hello", " ", "12-14: world"]
        = some [("10-12", "Hello"), ("12-14", "world")] := by
  constructor
  · exact load_transcript_spec.1 ["10-12: Hello", "not a valid line"] (by decide)
  · have h := load_transcript_spec.2 ["10-12: Hello", " ", "12-14: world"] (by decide)
    exact h.trans (by decide)

/-- Claim C5: when the text of no segment starts with a lowercase letter,
the merge pass is the identity on its input. -/
theorem merge_segments_id_of_no_lowercase (segs : List Segment)
    (h : ∀ s ∈ segs, ∀ c, s.2.toList.head? = some c → c.isLower = false) :
    merge_segments segs = some segs := by
  have h' : ∀ s ∈ segs, isContinuationText s.2 = false := by
    intro s hs
    rw [isContinuationText]
    cases hh : s.2.toList with
    | nil => rfl
    | cons c cs => exact h s hs c (by rw [hh]; rfl)
  have := merge_nofold_aux segs [] h'
  simpa [merge_segments] using this

/-- Witness for C5: a two-segment uppercase-start input is unchanged. -/
theorem merge_segments_id_of_no_lowercase_witness :
    merge_segments [("1-2", "Hello"), ("3-4", "World")]
      = some [("1-2", "Hello"), ("3-4", "World")] := by
  apply merge_segments_id_of_no_lowercase
  intro s hs c hc
  rcases List.mem_cons.mp hs with rfl | hs'
  · have h2 : ("Hello" : String).toList.head? = some 'H' := by decide
    rw [h2] at hc
    rw [← Option.some.inj hc]
    decide
  · rcases List.mem_cons.mp hs' with rfl | hs''
    · have h2 : ("World" : String).toList.head? = some 'W' := by decide
      rw [h2] at hc
      rw [← Option.some.inj hc]
      decide
    · simp at hs''

/-- Claim C6: the first input segment always starts a fresh output entry (a
one-element input is returned unchanged whatever its casing), and an
empty-text segment never triggers a fold: it is appended as its own
output entry. -/
theorem merge_segments_first_and_empty :
    (∀ seg : Segment, merge_segments [seg] = some [seg])
    ∧ (∀ (seg : Segment) (rest : List Segment),
        merge_segments (seg :: rest) = List.foldlM mergeStep [seg] rest)
    ∧ (∀ (merged : List Segment) (tr : String),
        mergeStep merged (tr, "") = some (merged ++ [(tr, "")])) := by
  refine ⟨?_, ?_, ?_⟩
  · intro seg
    rw [merge_segments, List.foldlM_cons, mergeStep_nil]
    rfl
  · intro seg rest
    rw [merge_segments, List.foldlM_cons, mergeStep_nil]
    rfl
  · intro merged tr
    exact mergeStep_of_not_cont merged (tr, "") rfl

/-- Claim C7: with an explicitly empty allowed-label set (and the default keyword
pattern), `filter_claims` degenerates to keyword-only matching: the entity
disjunct can never fire, so exactly the keyword-matching sentences are
kept — a CARDINAL-only sentence is now dropped. -/
theorem filter_claims_empty_labels :
    (∀ (results : List TaggedSentence) (r : TaggedSentence),
      r ∈ filter_claims results (some []) none ↔
        r ∈ results ∧ ∃ w, w ∈ keywordWords ∧ WordOccursL w.toList (lower r.2.1).toList)
    ∧ filter_claims [("0-1", "Take two of these", [("two", "CARDINAL")])] (some []) none
        = [] := by
  refine ⟨?_, by decide⟩
  intro results r
  have hfc : filter_claims results (some []) none
      = results.filter (fun r =>
          (r.2.2.any (fun e => ([] : List String).contains e.2))
          || defaultKeywordSearch r.2.1) := rfl
  rw [hfc, List.mem_filter]
  refine and_congr_right fun _ => ?_
  have hnum : (r.2.2.any (fun e => ([] : List String).contains e.2)) = false := by
    simp
  rw [hnum, Bool.false_or, defaultKeywordSearch, List.any_eq_true]
  constructor
  · rintro ⟨w, hw, hcw⟩
    exact ⟨w, hw, (containsWordB_iff _ _).mp hcw⟩
  · rintro ⟨w, hw, hcw⟩
    exact ⟨w, hw, (containsWordB_iff _ _).mpr hcw⟩

/-- Claim C8: the duplicated that-apostrophe-s alternative in the intro
pattern has no functional effect: `is_strong_claim` equals its variant
built on the
deduplicated intro pattern, on every input string. -/
theorem is_strong_claim_dup_no_effect :
    ∀ sent : String, is_strong_claim sent = is_strong_claim_dedup sent := by
  intro sent
  have hm : introMatch (lower sent) = introMatchDedup (lower sent) := by
    rw [introMatch, introMatchDedup]
    cases ha : startsWithL thatApos.toList (lower sent).toList <;> simp [ha]
  simp only [is_strong_claim, is_strong_claim_dedup, hm]

/-- Claim C9: `merge_segments` completes without error on every input whose
timeranges all contain a dash; and when a fold is triggered but the
timerange of the previous output segment or of the current segment
contains no dash, the timestamp extraction fails. -/
theorem merge_segments_dash_total :
    (∀ segs : List Segment,
      (∀ s ∈ segs, (splitFirst '-' s.1).isSome = true) →
      (merge_segments segs).isSome = true)
    ∧ (∀ (merged : List Segment) (tr t pr pt : String),
        isContinuationText t = true →
        merged.getLast? = some (pr, pt) →
        (splitFirst '-' pr = none ∨ splitFirst '-' tr = none) →
        mergeStep merged (tr, t) = none) := by
  constructor
  · intro segs h
    exact merge_total_aux segs [] h (by intro s hs; simp at hs)
  · intro merged tr t pr pt hcont hlast hbad
    have hne : merged ≠ [] := by
      intro hh
      rw [hh] at hlast
      simp at hlast
    have hempty : merged.isEmpty = false := by
      cases merged with
      | nil => exact absurd rfl hne
      | cons x xs => rfl
    have hg : (isContinuationText (tr, t).2 && !merged.isEmpty) = true := by
      simp [hcont, hempty]
    rw [mergeStep, if_pos hg]
    rcases hbad with hpr | htr
    · simp only [hlast, hpr]
    · cases hpr : splitFirst '-' pr with
      | none => simp only [hlast, hpr]
      | some sp => simp only [hlast, hpr, htr]

/-- Witness for C9: both halves at concrete inputs — a dashed input merges
without error, a dashless timerange makes the triggered fold fail. -/
theorem merge_segments_dash_total_witness :
    (merge_segments [("10-12", "Hello"), ("12-14", "world")]).isSome = true
    ∧ mergeStep [("1012", "Hello")] ("12-14", "world") = none := by
  constructor
  · exact merge_segments_dash_total.1 [("10-12", "Hello"), ("12-14", "world")] (by decide)
  · exact merge_segments_dash_total.2 [("1012", "Hello")] "12-14" "world"
      "1012" "Hello" (by decide) (by decide) (Or.inl (by decide))

/-- Claim C10: an empty-text segment can serve as a fold target: the
empty-text guard is only checked on the current segment, so a following
lowercase-start segment is folded into it, the merged text being a single
space followed by the text of that segment. -/
theorem merge_empty_text_target :
    (∀ (acc : List Segment) (pr tr t : String) (sp ec : String × String),
      (∃ c, t.toList.head? = some c ∧ c.isLower = true) →
      splitFirst '-' pr = some sp →
      splitFirst '-' tr = some ec →
      mergeStep (acc ++ [(pr, "")]) (tr, t)
        = some (acc ++ [(sp.1 ++ "-" ++ ec.2, " " ++ t)]))
    ∧ merge_segments [("0-1", ""), ("1-2", "hello")] = some [("0-2", " hello")] := by
  refine ⟨?_, by decide⟩
  intro acc pr tr t sp ec hc hsp hec
  obtain ⟨c, hc1, hc2⟩ := hc
  have hlast : (acc ++ [(pr, "")]).getLast? = some (pr, "") := by simp
  have h := mergeStep_fold (acc ++ [(pr, "")]) tr t pr "" sp ec
    (isContinuationText_of_head hc1 hc2) hlast hsp hec
  rw [h]
  have hdl : (acc ++ [(pr, "")]).dropLast = acc := by simp
  rw [hdl]
  have hs : (("" : String) ++ " ") ++ t = " " ++ t := by
    have h0 : (("" : String) ++ " ") = " " := rfl
    rw [h0]
  rw [hs]

/-- Witness for C10: the empty-text fold target at concrete segments. -/
theorem merge_empty_text_target_witness :
    mergeStep [("0-1", "")] ("1-2", "hello") = some [("0-2", " hello")] := by
  have h := merge_empty_text_target.1 [] "0-1" "1-2" "hello" ("0", "1") ("1", "2")
    ⟨'h', by decide, by decide⟩ (by decide) (by decide)
  exact h.trans (by decide)

end ClaimExtract
